import Mathlib

/-!
Verification of the safetensors multi-file index aggregator
(`safetensors_utils.py`): a shallow embedding of the header parser
(`read_safetensors_json`) and of the `SafetensorsWrapper` class
(construction, queries, `get_index`), with theorems checking the
natural-language specification against the code.

Modelling conventions:
* Python `bytes` values are `List Nat` (each element a byte value).
* `f.read(n)` on an open binary file returns *up to* `n` bytes; it is
  modelled by `List.take`.
* `struct.unpack` with the bare format string `Q` uses the *host native*
  byte order, so the model takes the platform byte order as an explicit
  `ByteOrder` parameter.
* `str.decode("utf-8")` is modelled by a strict UTF-8 decoder
  (rejecting continuation-byte starts, overlong forms, surrogates and
  code points above 0x10FFFF, as CPython does).
* `json.loads` is modelled by a recursive-descent parser for the JSON
  subset in which numeric literals are integers (no fraction/exponent
  part, no NaN/Infinity): safetensors headers only contain integer
  numerals, and no claim depends on floating-point literals.  Duplicate
  object keys keep the last value, as in Python `dict`-based decoder.
* Python `dict` values are insertion-ordered association lists
  (`List (String × _)`); assigning to an existing key updates the value
  in place, assigning a fresh key appends.
-/

/-- The JSON value model produced by the modelled `json.loads`
(numbers restricted to integers, see module comment). -/
inductive Json where
  | null : Json
  | bool : Bool → Json
  | num : Int → Json
  | str : String → Json
  | arr : List Json → Json
  | obj : List (String × Json) → Json

/-- Python `dict` lookup on an insertion-ordered association list. -/
def dictLookup {β : Type} (k : String) : List (String × β) → Option β
  | [] => none
  | kv :: rest => if kv.1 = k then some kv.2 else dictLookup k rest

/-- Python `d[k] = v` on an insertion-ordered association list: an existing
key keeps its position and gets the new value, a fresh key is appended. -/
def dictInsert {β : Type} (d : List (String × β)) (k : String) (v : β) :
    List (String × β) :=
  if (dictLookup k d).isSome then
    d.map (fun kv => if kv.1 = k then (k, v) else kv)
  else d ++ [(k, v)]

/-- Python bytes. -/
abbrev Bytes := List Nat

/-- The host platform native byte order (CPython bare `Q` struct format
uses native order; the spec demands little-endian regardless). -/
inductive ByteOrder where
  | little : ByteOrder
  | big : ByteOrder

/-- Model of `struct.unpack("Q", b)[0]`: fails unless `b` is exactly 8 bytes, and
interprets them as an unsigned 64-bit integer in the host *native*
byte order (the bare format `Q` does not fix endianness). -/
def structUnpackQ (bo : ByteOrder) (b : Bytes) : Except String Nat :=
  if b.length = 8 then
    match bo with
    | ByteOrder.little => Except.ok (b.foldr (fun byte acc => byte + 256 * acc) 0)
    | ByteOrder.big => Except.ok (b.foldl (fun acc byte => acc * 256 + byte) 0)
  else Except.error "struct.error: unpack requires a buffer of 8 bytes"

/-- Whether a byte is a UTF-8 continuation byte (0x80-0xBF). -/
def utf8Cont (b : Nat) : Bool := decide (128 ≤ b) && decide (b < 192)

/-- Strict UTF-8 decoding, fueled (each step consumes at least one byte,
so any fuel above the byte count is enough): rejects stray continuation
bytes, overlong encodings, surrogate code points and code points beyond
0x10FFFF, as Python `bytes.decode("utf-8")` does. -/
def utf8DecodeF : Nat → Bytes → Option (List Char)
  | 0, _ => none
  | Nat.succ _, [] => some []
  | Nat.succ fuel, b :: r =>
    if b < 128 then
      match utf8DecodeF fuel r with
      | some cs => some (Char.ofNat b :: cs)
      | none => none
    else if b < 194 then none
    else if b < 224 then
      match r with
      | b1 :: r1 =>
        if utf8Cont b1 then
          match utf8DecodeF fuel r1 with
          | some cs => some (Char.ofNat ((b - 192) * 64 + (b1 - 128)) :: cs)
          | none => none
        else none
      | [] => none
    else if b < 240 then
      match r with
      | b1 :: b2 :: r2 =>
        if utf8Cont b1 && utf8Cont b2 then
          let n := (b - 224) * 4096 + (b1 - 128) * 64 + (b2 - 128)
          if n < 2048 then none
          else if 55296 ≤ n ∧ n < 57344 then none
          else
            match utf8DecodeF fuel r2 with
            | some cs => some (Char.ofNat n :: cs)
            | none => none
        else none
      | _ => none
    else if b < 245 then
      match r with
      | b1 :: b2 :: b3 :: r3 =>
        if utf8Cont b1 && utf8Cont b2 && utf8Cont b3 then
          let n := (b - 240) * 262144 + (b1 - 128) * 4096 + (b2 - 128) * 64
            + (b3 - 128)
          if n < 65536 then none
          else if 1114112 ≤ n then none
          else
            match utf8DecodeF fuel r3 with
            | some cs => some (Char.ofNat n :: cs)
            | none => none
        else none
      | _ => none
    else none

/-- Model of `bytes.decode("utf-8")` on a whole byte string. -/
def utf8Decode (bs : Bytes) : Option (List Char) := utf8DecodeF (bs.length + 1) bs

/-- Skip JSON whitespace (space, tab, newline, carriage return). -/
def skipWs : List Char → List Char
  | [] => []
  | c :: r =>
    if c.toNat = 32 ∨ c.toNat = 9 ∨ c.toNat = 10 ∨ c.toNat = 13 then skipWs r
    else c :: r

/-- Value of a hexadecimal digit character, if any. -/
def hexVal (c : Char) : Option Nat :=
  if 48 ≤ c.toNat ∧ c.toNat ≤ 57 then some (c.toNat - 48)
  else if 97 ≤ c.toNat ∧ c.toNat ≤ 102 then some (c.toNat - 87)
  else if 65 ≤ c.toNat ∧ c.toNat ≤ 70 then some (c.toNat - 55)
  else none

/-- The character denoted by a single-character JSON escape, if valid. -/
def escChar (c : Char) : Option Char :=
  if c.toNat = 34 then some (Char.ofNat 34)
  else if c.toNat = 92 then some (Char.ofNat 92)
  else if c.toNat = 47 then some (Char.ofNat 47)
  else if c.toNat = 98 then some (Char.ofNat 8)
  else if c.toNat = 102 then some (Char.ofNat 12)
  else if c.toNat = 110 then some (Char.ofNat 10)
  else if c.toNat = 114 then some (Char.ofNat 13)
  else if c.toNat = 116 then some (Char.ofNat 9)
  else none

/-- Body of a JSON string literal, after the opening quote, fueled (each
step consumes at least one character): returns the decoded characters
and the input following the closing quote.  Surrogate pairs are
combined as Python decoder does; a lone surrogate escape is outside
the model (Lean `Char` cannot hold it) and is rejected. -/
def parseStringBodyF : Nat → List Char → Option (List Char × List Char)
  | 0, _ => none
  | Nat.succ _, [] => none
  | Nat.succ fuel, c :: r =>
    if c.toNat = 34 then some ([], r)
    else if c.toNat = 92 then
      match r with
      | [] => none
      | e :: r2 =>
        if e.toNat = 117 then
          match r2 with
          | h1 :: h2 :: h3 :: h4 :: r3 =>
            match hexVal h1, hexVal h2, hexVal h3, hexVal h4 with
            | some a, some b, some c2, some d =>
              let n := ((a * 16 + b) * 16 + c2) * 16 + d
              if 55296 ≤ n ∧ n < 56320 then
                match r3 with
                | s1 :: s2 :: g1 :: g2 :: g3 :: g4 :: r4 =>
                  if s1.toNat = 92 ∧ s2.toNat = 117 then
                    match hexVal g1, hexVal g2, hexVal g3, hexVal g4 with
                    | some a2, some b2, some c3, some d2 =>
                      let m := ((a2 * 16 + b2) * 16 + c3) * 16 + d2
                      if 56320 ≤ m ∧ m < 57344 then
                        match parseStringBodyF fuel r4 with
                        | some p =>
                          some (Char.ofNat (65536 + (n - 55296) * 1024
                            + (m - 56320)) :: p.1, p.2)
                        | none => none
                      else none
                    | _, _, _, _ => none
                  else none
                | _ => none
              else if 56320 ≤ n ∧ n < 57344 then none
              else
                match parseStringBodyF fuel r3 with
                | some p => some (Char.ofNat n :: p.1, p.2)
                | none => none
            | _, _, _, _ => none
          | _ => none
        else
          match escChar e with
          | none => none
          | some ec =>
            match parseStringBodyF fuel r2 with
            | some p => some (ec :: p.1, p.2)
            | none => none
    else if c.toNat < 32 then none
    else
      match parseStringBodyF fuel r with
      | some p => some (c :: p.1, p.2)
      | none => none

/-- JSON string-literal body with enough fuel for its input. -/
def parseStringBody (cs : List Char) : Option (List Char × List Char) :=
  parseStringBodyF (cs.length + 1) cs

/-- Longest prefix of decimal digits (as digit values) and the rest. -/
def takeDigits : List Char → List Nat × List Char
  | [] => ([], [])
  | c :: r =>
    if 48 ≤ c.toNat ∧ c.toNat ≤ 57 then
      let p := takeDigits r
      ((c.toNat - 48) :: p.1, p.2)
    else ([], c :: r)

/-- Natural number denoted by a list of digit values. -/
def digitsToNat (ds : List Nat) : Nat := ds.foldl (fun a d => a * 10 + d) 0

/-- JSON integer numeral: optional minus, no leading zeros, and (model
restriction) no fraction/exponent part. -/
def numParse (cs : List Char) : Option (Json × List Char) :=
  match cs with
  | [] => none
  | c :: r =>
    let neg := c.toNat = 45
    let body := if neg then r else cs
    let p := takeDigits body
    match p.1 with
    | [] => none
    | d0 :: ds =>
      if d0 = 0 ∧ ds ≠ [] then none
      else
        let stop :=
          match p.2 with
          | [] => true
          | c2 :: _ => ¬(c2.toNat = 46 ∨ c2.toNat = 101 ∨ c2.toNat = 69)
        if stop then
          let v : Int := Int.ofNat (digitsToNat (d0 :: ds))
          some (Json.num (if neg then -v else v), p.2)
        else none

/-- Match a literal given by its character codes, returning the rest. -/
def matchLit : List Nat → List Char → Option (List Char)
  | [], cs => some cs
  | n :: ns, c :: cs => if c.toNat = n then matchLit ns cs else none
  | _ :: _, [] => none

mutual

/-- One JSON value (fueled recursive descent, cf. `json.loads`). -/
def parseValue : Nat → List Char → Option (Json × List Char)
  | 0, _ => none
  | Nat.succ fuel, cs =>
    match skipWs cs with
    | [] => none
    | c :: r =>
      if c.toNat = 34 then
        match parseStringBody r with
        | some p => some (Json.str (String.mk p.1), p.2)
        | none => none
      else if c.toNat = 123 then
        match skipWs r with
        | c2 :: r2 =>
          if c2.toNat = 125 then some (Json.obj [], r2)
          else parseMembers fuel (c2 :: r2) []
        | [] => none
      else if c.toNat = 91 then
        match skipWs r with
        | c2 :: r2 =>
          if c2.toNat = 93 then some (Json.arr [], r2)
          else parseElements fuel (c2 :: r2) []
        | [] => none
      else if c.toNat = 116 then
        match matchLit [114, 117, 101] r with
        | some rest => some (Json.bool true, rest)
        | none => none
      else if c.toNat = 102 then
        match matchLit [97, 108, 115, 101] r with
        | some rest => some (Json.bool false, rest)
        | none => none
      else if c.toNat = 110 then
        match matchLit [117, 108, 108] r with
        | some rest => some (Json.null, rest)
        | none => none
      else numParse (c :: r)

/-- Members of a JSON object after the opening brace (non-empty case);
duplicate keys follow Python `dict` semantics (last value wins). -/
def parseMembers : Nat → List Char → List (String × Json) →
    Option (Json × List Char)
  | 0, _, _ => none
  | Nat.succ fuel, cs, acc =>
    match skipWs cs with
    | c :: r =>
      if c.toNat = 34 then
        match parseStringBody r with
        | some kp =>
          match skipWs kp.2 with
          | c2 :: r2 =>
            if c2.toNat = 58 then
              match parseValue fuel r2 with
              | some vp =>
                let acc2 := dictInsert acc (String.mk kp.1) vp.1
                match skipWs vp.2 with
                | c3 :: r4 =>
                  if c3.toNat = 44 then parseMembers fuel r4 acc2
                  else if c3.toNat = 125 then some (Json.obj acc2, r4)
                  else none
                | [] => none
              | none => none
            else none
          | [] => none
        | none => none
      else none
    | [] => none

/-- Elements of a JSON array after the opening bracket (non-empty case). -/
def parseElements : Nat → List Char → List Json → Option (Json × List Char)
  | 0, _, _ => none
  | Nat.succ fuel, cs, acc =>
    match parseValue fuel cs with
    | some vp =>
      match skipWs vp.2 with
      | c :: r2 =>
        if c.toNat = 44 then parseElements fuel r2 (acc ++ [vp.1])
        else if c.toNat = 93 then some (Json.arr (acc ++ [vp.1]), r2)
        else none
      | [] => none
    | none => none

end

/-- Model of `json.loads` on decoded text: one value, then only trailing
whitespace.  The fuel bound exceeds any possible nesting depth of the
input (Python itself has a finite recursion limit). -/
def jsonLoads (s : List Char) : Option Json :=
  match parseValue (s.length + 2) s with
  | some vp =>
    match skipWs vp.2 with
    | [] => some vp.1
    | _ :: _ => none
  | none => none

/-- Model of `read_safetensors_json` (src/safetensors_utils.py, lines 7-20):
`f.read(8)` (up to 8 bytes), `struct.unpack("Q", …)` in native byte
order, `f.read(header_size)` (up to that many bytes, with *no* check
that the read was complete), UTF-8 decode, then `json.loads`. -/
def read_safetensors_json (bo : ByteOrder) (file : Bytes) : Except String Json :=
  let header_size_bytes := file.take 8
  match structUnpackQ bo header_size_bytes with
  | Except.error e => Except.error e
  | Except.ok header_size =>
    let header_bytes := (file.drop 8).take header_size
    match utf8Decode header_bytes with
    | none => Except.error "UnicodeDecodeError"
    | some chars =>
      match jsonLoads chars with
      | none => Except.error "json.JSONDecodeError"
      | some j => Except.ok j

/-- ASCII character codes of a string (used only on ASCII literals when
building concrete test files). -/
def asciiBytes (s : String) : Bytes := s.data.map Char.toNat

/-- The 8 little-endian bytes of an unsigned 64-bit integer. -/
def u64le (n : Nat) : Bytes := (List.range 8).map (fun i => n / 256 ^ i % 256)

/-- One safetensors file as the aggregator sees it at construction time:
its path and its parsed `FileHeader` (tensor name → header entry, plus
possibly the reserved key, as the external `safetensors.safe_open`
exposes it). -/
structure SFile where
  path : String
  header : List (String × Json)

/-- The tensor names the external library `safe_open(...).keys()`
reports for a file: the header keys without the reserved
metadata entry (the library never lists it as a tensor). -/
def safeOpenKeys (f : SFile) : List String :=
  (f.header.map Prod.fst).filter (fun k => decide (k ≠ "__metadata__"))

/-- The aggregator state: ordered list of loaded paths and the registry
dict mapping tensor name to owning file handle
(`self._file_paths`, `self._tensors`). -/
structure Wrapper where
  file_paths : List String
  tensors : List (String × SFile)

/-- A materialized tensor, `file.get_tensor(name)`: materialization is
delegated to the external framework, so the model keeps it opaque as
the pair (owning file, name). -/
structure Tensor where
  source : SFile
  name : String

/-- Python exception message of the collision `ValueError`
(src line 48); the quotes around the name use character code 39. -/
def collisionMsg (key : String) : String :=
  "Tensor name collision detected: " ++ String.mk [Char.ofNat 39] ++ key
    ++ String.mk [Char.ofNat 39] ++ " is already loaded from another file."

/-- Python exception message of the lookup `KeyError` (src line 80). -/
def notFoundMsg (key : String) : String :=
  "Tensor " ++ String.mk [Char.ofNat 39] ++ key ++ String.mk [Char.ofNat 39]
    ++ " not found in any wrapped files."

/-- The key-insertion loop of `_load_file` (src lines 46-49): for each key
of the opened file, raise the collision `ValueError` if the registry
already has it, otherwise insert (name → file handle). -/
def insertTensors (file : SFile) (ts : List (String × SFile)) :
    List String → Except String (List (String × SFile))
  | [] => Except.ok ts
  | k :: ks =>
    if (dictLookup k ts).isSome then Except.error (collisionMsg k)
    else insertTensors file (ts ++ [(k, file)]) ks

/-- Model of `_load_file` (src lines 43-50): insert all of the file tensor keys,
then append the path to `self._file_paths`.  A raised exception
propagates out of the constructor, so the caller observes no state. -/
def loadFile (w : Wrapper) (f : SFile) : Except String Wrapper :=
  match insertTensors f w.tensors (safeOpenKeys f) with
  | Except.error e => Except.error e
  | Except.ok ts => Except.ok { file_paths := w.file_paths ++ [f.path], tensors := ts }

/-- The constructor loop of `__init__` (src lines 40-41). -/
def loadAll (w : Wrapper) : List SFile → Except String Wrapper
  | [] => Except.ok w
  | f :: fs =>
    match loadFile w f with
    | Except.error e => Except.error e
    | Except.ok w2 => loadAll w2 fs

/-- Model of `SafetensorsWrapper(files)` on an already-normalized list of files:
exceptions raised during `__init__` mean no object is constructed,
modelled by the `Except.error` result. -/
def initW (files : List SFile) : Except String Wrapper :=
  loadAll { file_paths := [], tensors := [] } files

/-- The dynamically-typed `file_paths` argument of `__init__`:
either a single path (a Python `str`) or a list. -/
inductive FilePathsArg where
  | one : SFile → FilePathsArg
  | many : List SFile → FilePathsArg

/-- The normalization at src lines 32-33:
`if isinstance(file_paths, str): file_paths = [file_paths]`. -/
def normalizeArg : FilePathsArg → List SFile
  | FilePathsArg.one f => [f]
  | FilePathsArg.many fs => fs

/-- Model of `SafetensorsWrapper.__init__` including the `str` normalization. -/
def initArg (a : FilePathsArg) : Except String Wrapper := initW (normalizeArg a)

/-- Model of `__getitem__` (src lines 76-80): return the materialized tensor if the
name is in the registry, else raise `KeyError` naming the tensor. -/
def getitem (w : Wrapper) (key : String) : Except String Tensor :=
  match dictLookup key w.tensors with
  | some f => Except.ok { source := f, name := key }
  | none => Except.error (notFoundMsg key)

/-- Model of `get` (src lines 52-56): `__getitem__` wrapped in
try/except-KeyError returning the caller-specified default.  A present
tensor is returned as `some`, the Python `None` default is `none`. -/
def Wrapper.get (w : Wrapper) (key : String) (default : Option Tensor) : Option Tensor :=
  match getitem w key with
  | Except.ok t => some t
  | Except.error _ => default

/-- Model of `keys` (src lines 58-60): `list(self._tensors.keys())`. -/
def keysW (w : Wrapper) : List String := w.tensors.map Prod.fst

/-- Model of `__contains__` (src lines 72-74). -/
def containsW (w : Wrapper) (key : String) : Bool :=
  (dictLookup key w.tensors).isSome

/-- Model of `__len__` (src lines 82-84): `len(self._tensors)`. -/
def lenW (w : Wrapper) : Nat := w.tensors.length

/-- Model of `__repr__` (src lines 90-92): note both interpolations are counts of
`self._tensors` (`len(self)` delegates to `__len__`). -/
def reprW (w : Wrapper) : String :=
  "<SafetensorsWrapper: " ++ toString (lenW w) ++ " tensors from "
    ++ toString w.tensors.length ++ " files>"

/-- Characters of the final path segment: everything after the last
slash (character code 47). -/
def lastSegment : List Char → List Char → List Char
  | seg, [] => seg.reverse
  | seg, c :: r => if c.toNat = 47 then lastSegment [] r else lastSegment (c :: seg) r

/-- Model of `os.path.basename` (POSIX): the part after the last slash. -/
def osPathBasename (p : String) : String := String.mk (lastSegment [] p.data)

/-- Python subscript `j[k]` for a string key: `dict` lookup (KeyError when
missing), TypeError on non-dict values. -/
def pySubscriptKey (j : Json) (k : String) : Except String Json :=
  match j with
  | Json.obj kvs =>
    match dictLookup k kvs with
    | some v => Except.ok v
    | none => Except.error ("KeyError: " ++ k)
  | _ => Except.error "TypeError: value is not subscriptable by str"

/-- Python subscript `j[i]` for a non-negative int: list indexing, string
indexing (yielding a one-character string), TypeError otherwise. -/
def pySubscriptIdx (j : Json) (i : Nat) : Except String Json :=
  match j with
  | Json.arr xs =>
    match xs.get? i with
    | some v => Except.ok v
    | none => Except.error "IndexError: list index out of range"
  | Json.str s =>
    match s.data.get? i with
    | some c => Except.ok (Json.str (String.mk [c]))
    | none => Except.error "IndexError: string index out of range"
  | _ => Except.error "TypeError: value is not subscriptable by int"

/-- The numeric value Python arithmetic gives a JSON scalar
(`True`/`False` count as 1/0), if any. -/
def pyNumVal (j : Json) : Option Int :=
  match j with
  | Json.num n => some n
  | Json.bool b => some (if b then 1 else 0)
  | _ => none

/-- Python subtraction on two decoded JSON values. -/
def pySub (a b : Json) : Except String Int :=
  match pyNumVal a, pyNumVal b with
  | some x, some y => Except.ok (x - y)
  | _, _ => Except.error "TypeError: unsupported operand types for -"

/-- The per-entry size expression of `get_index` (src line 114):
`tensor_info["data_offsets"][1] - tensor_info["data_offsets"][0]`. -/
def entrySpan (tinfo : Json) : Except String Int :=
  match pySubscriptKey tinfo "data_offsets" with
  | Except.error e => Except.error e
  | Except.ok offs1 =>
    match pySubscriptIdx offs1 1 with
    | Except.error e => Except.error e
    | Except.ok hi =>
      match pySubscriptKey tinfo "data_offsets" with
      | Except.error e => Except.error e
      | Except.ok offs0 =>
        match pySubscriptIdx offs0 0 with
        | Except.error e => Except.error e
        | Except.ok lo => pySub hi lo

/-- Model of `metadata.items()`: iterating a decoded JSON value as a dict;
AttributeError unless it is an object. -/
def jsonItems (j : Json) : Except String (List (String × Json)) :=
  match j with
  | Json.obj kvs => Except.ok kvs
  | _ => Except.error "AttributeError: value has no attribute items"

/-- The entry loop of `get_index` (src lines 110-114), over one file
parsed header: skip the reserved metadata key, otherwise record
name → basename in the weight map and add the entry byte span. -/
def indexEntries (file_name : String) :
    List (String × String) × Int → List (String × Json) →
    Except String (List (String × String) × Int)
  | acc, [] => Except.ok acc
  | acc, kv :: rest =>
    if kv.1 = "__metadata__" then indexEntries file_name acc rest
    else
      match entrySpan kv.2 with
      | Except.error e => Except.error e
      | Except.ok d =>
        indexEntries file_name (dictInsert acc.1 kv.1 file_name, acc.2 + d) rest

/-- The file loop of `get_index` (src lines 105-114): re-read and re-parse
each loaded path from disk (`fs` maps a path to the file current
bytes), then fold the entry loop. -/
def indexFiles (bo : ByteOrder) (fs : String → Bytes) :
    List (String × String) × Int → List String →
    Except String (List (String × String) × Int)
  | acc, [] => Except.ok acc
  | acc, p :: rest =>
    match read_safetensors_json bo (fs p) with
    | Except.error e => Except.error e
    | Except.ok metadata =>
      match jsonItems metadata with
      | Except.error e => Except.error e
      | Except.ok kvs =>
        match indexEntries (osPathBasename p) acc kvs with
        | Except.error e => Except.error e
        | Except.ok acc2 => indexFiles bo fs acc2 rest

/-- The result dict of `get_index` (src lines 117-122):
`{"metadata": {"total_size": total_size}, "weight_map": weight_map}`,
flattened into a structure. -/
structure IndexSummary where
  total_size : Int
  weight_map : List (String × String)

/-- Model of `get_index` (src lines 94-123), parameterized by the platform byte
order and the on-disk bytes at index time. -/
def get_index (bo : ByteOrder) (fs : String → Bytes) (file_paths : List String) :
    Except String IndexSummary :=
  match indexFiles bo fs ([], 0) file_paths with
  | Except.error e => Except.error e
  | Except.ok acc => Except.ok { total_size := acc.2, weight_map := acc.1 }

/-- The tensor names inserted into the registry, in insertion order, over
a load sequence: concatenation of each file `safe_open` key list. -/
def allKeys : List SFile → List String
  | [] => []
  | f :: fs => safeOpenKeys f ++ allKeys fs

/-- The registry contents a successful load of the given files produces:
each file keys paired with that file, in insertion order. -/
def regOf : List SFile → List (String × SFile)
  | [] => []
  | f :: fs => (safeOpenKeys f).map (fun k => (k, f)) ++ regOf fs

/-- First element of the second list that has already been seen — either
in the first list or earlier in the second (the name the collision
check trips on). -/
def firstRepeat : List String → List String → Option String
  | _, [] => none
  | seen, k :: ks => if k ∈ seen then some k else firstRepeat (k :: seen) ks

/-- Whether an exceptional computation succeeded. -/
def exOk {α β : Type} (e : Except α β) : Bool :=
  match e with
  | Except.ok _ => true
  | Except.error _ => false

/-- The byte span `data_offsets[1] - data_offsets[0]` of a header entry,
defaulting to 0 when the entry is malformed (only used under the
hypothesis that the extraction succeeds). -/
def spanD (j : Json) : Int :=
  match entrySpan j with
  | Except.ok n => n
  | Except.error _ => 0

/-- Names of the non-reserved entries of a parsed header. -/
def nonMetaNames (kvs : List (String × Json)) : List String :=
  (kvs.filter (fun kv => decide (kv.1 ≠ "__metadata__"))).map Prod.fst

/-- Sum of the byte spans of the non-reserved entries of one header:
the spec per-file contribution to `total_size`. -/
def entriesSum (kvs : List (String × Json)) : Int :=
  ((kvs.filter (fun kv => decide (kv.1 ≠ "__metadata__"))).map
    (fun kv => spanD kv.2)).sum

/-- The spec `total_size`: sum over every loaded file and every
non-reserved header entry of `data_offsets[1] - data_offsets[0]`. -/
def pathsSum (hdr : String → List (String × Json)) (paths : List String) : Int :=
  (paths.map (fun p => entriesSum (hdr p))).sum

/-- The last path in load order whose on-disk header (at index time)
contains the given tensor name as a non-reserved entry: the file the
spec says wins the `weight_map` entry. -/
def lastOwner (hdr : String → List (String × Json)) (k : String) :
    List String → Option String
  | [] => none
  | p :: ps =>
    match lastOwner hdr k ps with
    | some q => some q
    | none => if k ∈ nonMetaNames (hdr p) then some p else none

/-- A well-formed header entry used by the concrete test files
(the spec §8 example entry). -/
def infoF32 : Json :=
  Json.obj [("dtype", Json.str "F32"), ("shape", Json.arr [Json.num 2]),
    ("data_offsets", Json.arr [Json.num 0, Json.num 8])]

/-- A second well-formed header entry, spanning 4 bytes. -/
def info4 : Json :=
  Json.obj [("dtype", Json.str "F32"), ("shape", Json.arr [Json.num 1]),
    ("data_offsets", Json.arr [Json.num 0, Json.num 4])]

/-- Concrete file for the collision test: declares tensor name w. -/
def fileW1 : SFile := { path := "file1.safetensors", header := [("w", infoF32)] }

/-- Second concrete file declaring the same tensor name w. -/
def fileW2 : SFile := { path := "file2.safetensors", header := [("w", info4)] }

/-- Concrete single file with one tensor named a. -/
def fileA : SFile := { path := "f1", header := [("a", infoF32)] }

/-- The wrapper obtained by loading `fileA` alone. -/
def wrapA : Wrapper := { file_paths := ["f1"], tensors := [("a", fileA)] }

/-- On-disk bytes whose header is the 28-character object mapping a to
data_offsets [0,8]. -/
def bytesA : Bytes :=
  u64le 28 ++ asciiBytes "\x7b\"a\":\x7b\"data_offsets\":[0,8]\x7d\x7d"

/-- Index-time filesystem for the single-file total_size test. -/
def fsA : String → Bytes := fun _ => bytesA

/-- Parsed header of `bytesA`, as a function of the path. -/
def hdrA : String → List (String × Json) := fun _ =>
  [("a", Json.obj [("data_offsets", Json.arr [Json.num 0, Json.num 8])])]

/-- Construction-time file with tensor w1, stored under a directory. -/
def fileD1 : SFile :=
  { path := "dir/file1.safetensors", header := [("w1", infoF32)] }

/-- Construction-time file with tensor w2. -/
def fileD2 : SFile := { path := "file2.safetensors", header := [("w2", infoF32)] }

/-- The wrapper obtained by loading `fileD1` then `fileD2`. -/
def wrapD : Wrapper :=
  { file_paths := ["dir/file1.safetensors", "file2.safetensors"],
    tensors := [("w1", fileD1), ("w2", fileD2)] }

/-- Index-time bytes (for every path) whose header declares one tensor w
with data_offsets [0,4]: both loaded paths now share a name. -/
def fsD : String → Bytes := fun _ =>
  u64le 28 ++ asciiBytes "\x7b\"w\":\x7b\"data_offsets\":[0,4]\x7d\x7d"

/-- Index-time parsed header for every path of `fsD`. -/
def hdrD : String → List (String × Json) := fun _ =>
  [("w", Json.obj [("data_offsets", Json.arr [Json.num 0, Json.num 4])])]

/-- The spec §8 example header text (54 ASCII bytes). -/
def exHeader : String :=
  "\x7b\"a\":\x7b\"dtype\":\"F32\",\"shape\":[2],\"data_offsets\":[0,8]\x7d\x7d"

/-- The decoded JSON value of `exHeader`. -/
def exJson : Json :=
  Json.obj [("a", infoF32)]

/-- A truncated container: the length prefix declares a 100-byte header,
but only the 54 bytes of `exHeader` follow. -/
def c4file : Bytes := u64le 100 ++ asciiBytes exHeader

/-- A complete container: correct little-endian prefix for `exHeader`
followed by 8 bytes of tensor data (ASCII 65 each). -/
def c5file : Bytes :=
  u64le (asciiBytes exHeader).length ++ asciiBytes exHeader
    ++ List.replicate 8 65

/-- The empty wrapper (no files loaded). -/
def wrapEmpty : Wrapper := { file_paths := [], tensors := [] }

/-- Concrete file with tensors t1, t2 and a reserved metadata entry. -/
def fileT12 : SFile :=
  { path := "a.safetensors",
    header := [("t1", infoF32), ("t2", info4), ("__metadata__",
      Json.obj [("format", Json.str "pt")])] }

/-- Concrete file with tensor t3. -/
def fileT3 : SFile := { path := "b.safetensors", header := [("t3", infoF32)] }

/-- The wrapper obtained by loading `fileT12` alone. -/
def wrapT12 : Wrapper :=
  { file_paths := ["a.safetensors"], tensors := [("t1", fileT12), ("t2", fileT12)] }

/-- The wrapper obtained by loading `fileT12` then `fileT3`:
two files, three tensors. -/
def wrapT123 : Wrapper :=
  { file_paths := ["a.safetensors", "b.safetensors"],
    tensors := [("t1", fileT12), ("t2", fileT12), ("t3", fileT3)] }

theorem dictLookup_eq_none_iff {β : Type} (ts : List (String × β)) (k : String) :
    dictLookup k ts = none ↔ k ∉ ts.map Prod.fst := by
  induction ts with
  | nil => simp [dictLookup]
  | cons kv rest ih =>
    by_cases h : kv.1 = k
    · simp [dictLookup, h]
    · simp [dictLookup, h, ih, Ne.symm h]

theorem dictLookup_append_eq_none_iff {β : Type} (ts us : List (String × β))
    (k : String) :
    dictLookup k (ts ++ us) = none ↔
      dictLookup k ts = none ∧ dictLookup k us = none := by
  induction ts with
  | nil => simp [dictLookup]
  | cons kv rest ih =>
    by_cases h : kv.1 = k
    · simp [dictLookup, h]
    · simp [dictLookup, h, ih]

theorem dictLookup_append_of_none {β : Type} {ts : List (String × β)}
    (us : List (String × β)) {k : String} (h : dictLookup k ts = none) :
    dictLookup k (ts ++ us) = dictLookup k us := by
  induction ts with
  | nil => simp [dictLookup]
  | cons kv rest ih =>
    by_cases hh : kv.1 = k
    · simp [dictLookup, hh] at h
    · simp only [dictLookup, hh, if_false, List.cons_append] at h ⊢
      exact ih h

theorem dictLookup_append_of_some {β : Type} {ts : List (String × β)}
    (us : List (String × β)) {k : String} {v : β}
    (h : dictLookup k ts = some v) :
    dictLookup k (ts ++ us) = some v := by
  induction ts with
  | nil => simp [dictLookup] at h
  | cons kv rest ih =>
    by_cases hh : kv.1 = k
    · simp only [dictLookup, hh, if_true] at h ⊢
      exact h
    · simp only [dictLookup, hh, if_false, List.cons_append] at h ⊢
      exact ih h

theorem dictLookup_mapPair (ks : List String) (f : SFile) (k : String) :
    dictLookup k (ks.map (fun x => (x, f))) = if k ∈ ks then some f else none := by
  induction ks with
  | nil => simp [dictLookup]
  | cons a ks ih =>
    by_cases h : a = k
    · simp [dictLookup, h]
    · simp [dictLookup, h, ih, Ne.symm h]

theorem firstRepeat_congr (l : List String) : ∀ s1 s2 : List String,
    (∀ x, x ∈ s1 ↔ x ∈ s2) → firstRepeat s1 l = firstRepeat s2 l := by
  induction l with
  | nil => intro s1 s2 _; rfl
  | cons k l ih =>
    intro s1 s2 h
    by_cases hk : k ∈ s1
    · simp [firstRepeat, hk, (h k).mp hk]
    · have hk2 : k ∉ s2 := fun hm => hk ((h k).mpr hm)
      simp only [firstRepeat, hk, hk2, if_false]
      exact ih (k :: s1) (k :: s2) (by intro x; simp [h x])

theorem firstRepeat_append (l1 : List String) : ∀ (l2 seen : List String),
    firstRepeat seen (l1 ++ l2) =
      match firstRepeat seen l1 with
      | some d => some d
      | none => firstRepeat (l1 ++ seen) l2 := by
  induction l1 with
  | nil => intro l2 seen; rfl
  | cons k l1 ih =>
    intro l2 seen
    by_cases hk : k ∈ seen
    · simp [firstRepeat, hk]
    · simp only [List.cons_append, firstRepeat, hk, if_false, List.append_eq]
      rw [ih l2 (k :: seen)]
      cases hfr : firstRepeat (k :: seen) l1 with
      | some d => rfl
      | none =>
        exact firstRepeat_congr l2 (l1 ++ k :: seen) ((k :: l1) ++ seen)
          (by intro x; simp; tauto)

theorem firstRepeat_eq_none_iff (l : List String) : ∀ seen : List String,
    firstRepeat seen l = none ↔ l.Nodup ∧ ∀ x ∈ l, x ∉ seen := by
  induction l with
  | nil => intro seen; simp [firstRepeat]
  | cons k l ih =>
    intro seen
    by_cases hk : k ∈ seen
    · simp [firstRepeat, hk]
    · simp only [firstRepeat, hk, if_false, ih (k :: seen), List.nodup_cons,
        List.mem_cons]
      constructor
      · rintro ⟨hnd, hall⟩
        refine ⟨⟨fun hkl => (hall k hkl) (Or.inl rfl), hnd⟩, ?_⟩
        intro x hx
        rcases hx with hx | hx
        · subst hx; exact hk
        · intro hxs; exact (hall x hx) (Or.inr hxs)
      · rintro ⟨⟨hkl, hnd⟩, hall⟩
        refine ⟨hnd, ?_⟩
        intro x hx hmem
        rcases hmem with rfl | hxs
        · exact hkl hx
        · exact (hall x (Or.inr hx)) hxs

theorem firstRepeat_some_dup (l : List String) : ∀ (seen : List String)
    (d : String), firstRepeat seen l = some d →
    d ∈ l ∧ (d ∈ seen ∨ 2 ≤ l.count d) := by
  induction l with
  | nil => intro seen d h; simp [firstRepeat] at h
  | cons k l ih =>
    intro seen d h
    by_cases hk : k ∈ seen
    · simp only [firstRepeat, hk, if_true, Option.some_inj] at h
      subst h
      exact ⟨by simp, Or.inl hk⟩
    · simp only [firstRepeat, hk, if_false] at h
      obtain ⟨hmem, hrest⟩ := ih (k :: seen) d h
      have hcc : (k :: l).count d = l.count d + if k == d then 1 else 0 :=
        List.count_cons d k l
      refine ⟨by simp [hmem], ?_⟩
      rcases hrest with hseen | hcount
      · rcases List.mem_cons.mp hseen with heq | hs
        · right
          have h1 : 0 < l.count d := List.count_pos_iff.mpr hmem
          have hbeq : (k == d) = true := by simp [heq]
          rw [hcc, if_pos hbeq]
          omega
        · exact Or.inl hs
      · right
        rw [hcc]
        by_cases hbb : (k == d) = true
        · rw [if_pos hbb]; omega
        · rw [if_neg hbb]; omega

theorem insertTensors_ok_elim (ks : List String) :
    ∀ (ts ts' : List (String × SFile)) (f : SFile),
    insertTensors f ts ks = Except.ok ts' →
    ts' = ts ++ ks.map (fun k => (k, f)) ∧ ks.Nodup ∧
      ∀ k ∈ ks, dictLookup k ts = none := by
  induction ks with
  | nil =>
    intro ts ts' f h
    simp [insertTensors] at h
    simp [h.symm]
  | cons k ks ih =>
    intro ts ts' f h
    by_cases hs : (dictLookup k ts).isSome
    · simp [insertTensors, hs] at h
    · have hnone : dictLookup k ts = none := Option.not_isSome_iff_eq_none.mp hs
      simp only [insertTensors, hs, if_false] at h
      obtain ⟨hts, hnd, hall⟩ := ih (ts ++ [(k, f)]) ts' f h
      have hknot : k ∉ ks := by
        intro hkk
        have := hall k hkk
        rw [dictLookup_append_eq_none_iff] at this
        simp [dictLookup] at this
      refine ⟨by simp [hts], List.nodup_cons.mpr ⟨hknot, hnd⟩, ?_⟩
      intro k2 hk2
      rcases List.mem_cons.mp hk2 with rfl | hk2
      · exact hnone
      · exact ((dictLookup_append_eq_none_iff ts [(k, f)] k2).mp (hall k2 hk2)).1

theorem insertTensors_ok_intro (ks : List String) :
    ∀ (ts : List (String × SFile)) (f : SFile), ks.Nodup →
    (∀ k ∈ ks, dictLookup k ts = none) →
    insertTensors f ts ks = Except.ok (ts ++ ks.map (fun k => (k, f))) := by
  induction ks with
  | nil =>
    intro ts f _ _
    simp [insertTensors]
  | cons k ks ih =>
    intro ts f hnd hall
    have hnone : dictLookup k ts = none := hall k (by simp)
    have hs : ¬(dictLookup k ts).isSome := by simp [hnone]
    simp only [insertTensors, hs, if_false]
    have hknot : k ∉ ks := (List.nodup_cons.mp hnd).1
    have h2 : ∀ k2 ∈ ks, dictLookup k2 (ts ++ [(k, f)]) = none := by
      intro k2 hk2
      rw [dictLookup_append_eq_none_iff]
      refine ⟨hall k2 (by simp [hk2]), ?_⟩
      have hne : k ≠ k2 := fun he => hknot (he ▸ hk2)
      simp [dictLookup, hne]
    rw [ih (ts ++ [(k, f)]) f (List.nodup_cons.mp hnd).2 h2]
    simp

theorem insertTensors_error (ks : List String) :
    ∀ (ts : List (String × SFile)) (f : SFile) (d : String),
    firstRepeat (ts.map Prod.fst) ks = some d →
    insertTensors f ts ks = Except.error (collisionMsg d) := by
  induction ks with
  | nil => intro ts f d h; simp [firstRepeat] at h
  | cons k ks ih =>
    intro ts f d h
    by_cases hk : k ∈ ts.map Prod.fst
    · simp only [firstRepeat, hk, if_true, Option.some_inj] at h
      subst h
      have hs : (dictLookup k ts).isSome := by
        rw [Option.isSome_iff_ne_none]
        intro hn
        exact ((dictLookup_eq_none_iff ts k).mp hn) hk
      simp [insertTensors, hs]
    · simp only [firstRepeat, hk, if_false] at h
      have hnone : dictLookup k ts = none := (dictLookup_eq_none_iff ts k).mpr hk
      have hs : ¬(dictLookup k ts).isSome := by simp [hnone]
      simp only [insertTensors, hs, if_false]
      apply ih (ts ++ [(k, f)]) f d
      rw [firstRepeat_congr ks ((ts ++ [(k, f)]).map Prod.fst) (k :: ts.map Prod.fst)
        (by intro x; simp; tauto)]
      exact h

theorem loadAll_ok_elim (files : List SFile) :
    ∀ (w0 w : Wrapper), loadAll w0 files = Except.ok w →
    w.file_paths = w0.file_paths ++ files.map SFile.path ∧
    w.tensors = w0.tensors ++ regOf files ∧
    (allKeys files).Nodup ∧
    ∀ k ∈ allKeys files, dictLookup k w0.tensors = none := by
  induction files with
  | nil =>
    intro w0 w h
    simp [loadAll] at h
    simp [h.symm, allKeys, regOf]
  | cons f fs ih =>
    intro w0 w h
    simp only [loadAll, loadFile] at h
    cases hins : insertTensors f w0.tensors (safeOpenKeys f) with
    | error e => rw [hins] at h; exact absurd h (by simp)
    | ok ts1 =>
      rw [hins] at h
      simp only at h
      obtain ⟨hts1, hndf, hdisf⟩ :=
        insertTensors_ok_elim (safeOpenKeys f) w0.tensors ts1 f hins
      obtain ⟨hp, ht, hnd, hdis⟩ :=
        ih { file_paths := w0.file_paths ++ [f.path], tensors := ts1 } w h
      have hsub : ∀ k ∈ allKeys fs,
          dictLookup k w0.tensors = none ∧ k ∉ safeOpenKeys f := by
        intro k hk
        have := hdis k hk
        simp only [hts1] at this
        rw [dictLookup_append_eq_none_iff] at this
        refine ⟨this.1, ?_⟩
        have h2 := this.2
        rw [dictLookup_mapPair] at h2
        by_cases hmem : k ∈ safeOpenKeys f
        · rw [if_pos hmem] at h2; exact absurd h2 (by simp)
        · exact hmem
      refine ⟨?_, ?_, ?_, ?_⟩
      · rw [hp]; simp
      · rw [ht, hts1]; simp [regOf]
      · simp only [allKeys]
        rw [List.nodup_append]
        refine ⟨hndf, hnd, ?_⟩
        intro a haf hafs
        exact (hsub a hafs).2 haf
      · intro k hk
        simp only [allKeys, List.mem_append] at hk
        rcases hk with hk | hk
        · exact hdisf k hk
        · exact (hsub k hk).1

theorem initW_ok_elim (files : List SFile) (w : Wrapper)
    (h : initW files = Except.ok w) :
    w.file_paths = files.map SFile.path ∧ w.tensors = regOf files ∧
    (allKeys files).Nodup := by
  obtain ⟨hp, ht, hnd, _⟩ :=
    loadAll_ok_elim files { file_paths := [], tensors := [] } w h
  exact ⟨by simpa using hp, by simpa using ht, hnd⟩

theorem loadAll_error (files : List SFile) :
    ∀ (w0 : Wrapper) (d : String),
    firstRepeat (w0.tensors.map Prod.fst) (allKeys files) = some d →
    loadAll w0 files = Except.error (collisionMsg d) := by
  induction files with
  | nil => intro w0 d h; simp [allKeys, firstRepeat] at h
  | cons f fs ih =>
    intro w0 d h
    simp only [allKeys] at h
    rw [firstRepeat_append] at h
    cases hsplit : firstRepeat (w0.tensors.map Prod.fst) (safeOpenKeys f) with
    | some d1 =>
      rw [hsplit] at h
      simp only [Option.some_inj] at h
      subst h
      simp only [loadAll, loadFile]
      rw [insertTensors_error (safeOpenKeys f) w0.tensors f d1 hsplit]
    | none =>
      rw [hsplit] at h
      simp only at h
      obtain ⟨hndf, hnotin⟩ :=
        (firstRepeat_eq_none_iff (safeOpenKeys f) (w0.tensors.map Prod.fst)).mp hsplit
      have hnone : ∀ k ∈ safeOpenKeys f, dictLookup k w0.tensors = none := by
        intro k hk
        exact (dictLookup_eq_none_iff w0.tensors k).mpr (hnotin k hk)
      simp only [loadAll, loadFile]
      rw [insertTensors_ok_intro (safeOpenKeys f) w0.tensors f hndf hnone]
      simp only
      apply ih
      rw [firstRepeat_congr (allKeys fs)
        ((w0.tensors ++ (safeOpenKeys f).map (fun k => (k, f))).map Prod.fst)
        ((safeOpenKeys f) ++ w0.tensors.map Prod.fst)
        (by intro x; simp [List.map_map, Function.comp]; tauto)]
      exact h

theorem dictLookup_mapReplace {β : Type} (d : List (String × β)) (k0 : String)
    (v : β) (k : String) :
    dictLookup k (d.map (fun kv => if kv.1 = k0 then (k0, v) else kv)) =
      if k = k0 then
        (match dictLookup k0 d with
          | some _ => some v
          | none => none)
      else dictLookup k d := by
  induction d with
  | nil => by_cases h : k = k0 <;> simp [dictLookup, h]
  | cons kv rest ih =>
    by_cases h1 : kv.1 = k0
    · by_cases h2 : k = k0
      · subst h2
        simp [dictLookup, h1]
      · have h3 : k0 ≠ k := Ne.symm h2
        simp only [List.map_cons, if_pos h1, dictLookup, h3, if_false, ih,
          if_neg h2]
        have h4 : kv.1 ≠ k := by rw [h1]; exact h3
        rw [if_neg h4]
    · by_cases h2 : kv.1 = k
      · have h3 : k ≠ k0 := by rw [← h2]; exact fun he => h1 he
        simp only [List.map_cons, if_neg h1, dictLookup, h2, if_true,
          if_neg h3]
      · simp only [List.map_cons, if_neg h1, dictLookup, h2, if_false, ih]

theorem dictLookup_dictInsert {β : Type} (d : List (String × β)) (k0 : String)
    (v : β) (k : String) :
    dictLookup k (dictInsert d k0 v) =
      if k = k0 then some v else dictLookup k d := by
  unfold dictInsert
  by_cases hs : (dictLookup k0 d).isSome
  · rw [if_pos hs, dictLookup_mapReplace]
    by_cases h : k = k0
    · rw [if_pos h, if_pos h]
      obtain ⟨w, hw⟩ := Option.isSome_iff_exists.mp hs
      rw [hw]
    · rw [if_neg h, if_neg h]
  · rw [if_neg hs]
    have hnone : dictLookup k0 d = none := Option.not_isSome_iff_eq_none.mp hs
    by_cases h : k = k0
    · subst h
      rw [if_pos rfl, dictLookup_append_of_none _ hnone]
      simp [dictLookup]
    · rw [if_neg h]
      cases hc : dictLookup k d with
      | some w => exact dictLookup_append_of_some _ hc
      | none =>
        rw [dictLookup_append_of_none _ hc]
        have h2 : k0 ≠ k := fun he => h he.symm
        simp [dictLookup, h2, hc]

theorem indexEntries_ok (fn : String) (kvs : List (String × Json)) :
    ∀ (wm : List (String × String)) (t : Int),
    (∀ kv ∈ kvs, kv.1 ≠ "__metadata__" → exOk (entrySpan kv.2) = true) →
    ∃ wm', indexEntries fn (wm, t) kvs = Except.ok (wm', t + entriesSum kvs) ∧
      ∀ k, dictLookup k wm' =
        if k ∈ nonMetaNames kvs then some fn else dictLookup k wm := by
  induction kvs with
  | nil =>
    intro wm t _
    refine ⟨wm, ?_, ?_⟩
    · simp [indexEntries, entriesSum]
    · intro k
      simp [nonMetaNames]
  | cons kv rest ih =>
    intro wm t hwf
    have hrest : ∀ kv2 ∈ rest, kv2.1 ≠ "__metadata__" →
        exOk (entrySpan kv2.2) = true := by
      intro kv2 h2 hn2
      exact hwf kv2 (by simp [h2]) hn2
    by_cases hm : kv.1 = "__metadata__"
    · obtain ⟨wm', hok, hlk⟩ := ih wm t hrest
      have hsum : entriesSum (kv :: rest) = entriesSum rest := by
        simp [entriesSum, hm]
      have hnames : nonMetaNames (kv :: rest) = nonMetaNames rest := by
        simp [nonMetaNames, hm]
      refine ⟨wm', ?_, ?_⟩
      · rw [hsum]
        have hstep : indexEntries fn (wm, t) (kv :: rest) =
            indexEntries fn (wm, t) rest := by
          simp [indexEntries, hm]
        rw [hstep]
        exact hok
      · intro k
        rw [hnames]
        exact hlk k
    · have hspan := hwf kv (by simp) hm
      cases hd : entrySpan kv.2 with
      | error e => rw [hd] at hspan; simp [exOk] at hspan
      | ok d =>
        obtain ⟨wm', hok, hlk⟩ := ih (dictInsert wm kv.1 fn) (t + d) hrest
        have hsd : spanD kv.2 = d := by simp [spanD, hd]
        have hsum : entriesSum (kv :: rest) = d + entriesSum rest := by
          simp [entriesSum, hm, hsd]
        have hnames : nonMetaNames (kv :: rest) = kv.1 :: nonMetaNames rest := by
          simp [nonMetaNames, hm]
        refine ⟨wm', ?_, ?_⟩
        · have hstep : indexEntries fn (wm, t) (kv :: rest) =
              indexEntries fn (dictInsert wm kv.1 fn, t + d) rest := by
            simp [indexEntries, hm, hd]
          rw [hstep, hok, hsum, add_assoc]
        · intro k
          rw [hlk k, dictLookup_dictInsert, hnames]
          by_cases h1 : k ∈ nonMetaNames rest
          · rw [if_pos h1, if_pos (by simp [h1])]
          · rw [if_neg h1]
            by_cases h2 : k = kv.1
            · rw [if_pos h2, if_pos (by simp [h2])]
            · rw [if_neg h2, if_neg (by simp [List.mem_cons, h1, h2])]

theorem indexFiles_ok (bo : ByteOrder) (fs : String → Bytes)
    (hdr : String → List (String × Json)) (paths : List String) :
    ∀ (wm : List (String × String)) (t : Int),
    (∀ p ∈ paths, read_safetensors_json bo (fs p) = Except.ok (Json.obj (hdr p))) →
    (∀ p ∈ paths, ∀ kv ∈ hdr p, kv.1 ≠ "__metadata__" →
      exOk (entrySpan kv.2) = true) →
    ∃ wm', indexFiles bo fs (wm, t) paths =
        Except.ok (wm', t + pathsSum hdr paths) ∧
      ∀ k, dictLookup k wm' =
        match lastOwner hdr k paths with
        | some q => some (osPathBasename q)
        | none => dictLookup k wm := by
  induction paths with
  | nil =>
    intro wm t _ _
    refine ⟨wm, ?_, ?_⟩
    · simp [indexFiles, pathsSum]
    · intro k; simp [lastOwner]
  | cons p rest ih =>
    intro wm t hparse hwf
    have hp := hparse p (by simp)
    have hwfp := hwf p (by simp)
    obtain ⟨wm1, hok1, hlk1⟩ := indexEntries_ok (osPathBasename p) (hdr p) wm t hwfp
    have hstep : indexFiles bo fs (wm, t) (p :: rest) =
        indexFiles bo fs (wm1, t + entriesSum (hdr p)) rest := by
      simp [indexFiles, hp, jsonItems, hok1]
    obtain ⟨wm', hok', hlk'⟩ := ih wm1 (t + entriesSum (hdr p))
      (fun q hq => hparse q (by simp [hq])) (fun q hq => hwf q (by simp [hq]))
    refine ⟨wm', ?_, ?_⟩
    · rw [hstep, hok']
      have harith : t + entriesSum (hdr p) + pathsSum hdr rest =
          t + pathsSum hdr (p :: rest) := by
        simp only [pathsSum, List.map_cons, List.sum_cons]
        omega
      rw [harith]
    · intro k
      rw [hlk' k]
      cases hlo : lastOwner hdr k rest with
      | some q => simp [lastOwner, hlo]
      | none =>
        by_cases hmem : k ∈ nonMetaNames (hdr p)
        · simp [lastOwner, hlo, hmem, hlk1 k]
        · simp [lastOwner, hlo, hmem, hlk1 k]

theorem map_fst_pair (ks : List String) (f : SFile) :
    (ks.map (fun k => (k, f))).map Prod.fst = ks := by
  induction ks with
  | nil => rfl
  | cons k ks ih => simp [ih]

theorem regOf_map_fst (files : List SFile) :
    (regOf files).map Prod.fst = allKeys files := by
  induction files with
  | nil => rfl
  | cons f fs ih =>
    show ((safeOpenKeys f).map (fun k => (k, f)) ++ regOf fs).map Prod.fst =
      safeOpenKeys f ++ allKeys fs
    rw [List.map_append, ih, map_fst_pair]

theorem mem_allKeys (files : List SFile) (n : String) :
    n ∈ allKeys files ↔ ∃ f ∈ files, n ∈ safeOpenKeys f := by
  induction files with
  | nil => simp [allKeys]
  | cons f fs ih => simp [allKeys, ih, List.mem_append, or_and_right, exists_or]

/-- C1: if any file in the load sequence declares a tensor name already
inserted into the registry — by an earlier file or earlier in the same
load — construction fails with the collision `ValueError` naming a
duplicated tensor, and no `Wrapper` value is produced (the `Except.error`
result carries no partial registry, matching the Python constructor
raising before the object is returned to the caller). -/
theorem C1_collision_all_or_nothing (files : List SFile)
    (h : ¬(allKeys files).Nodup) :
    ∃ name, 2 ≤ (allKeys files).count name ∧
      initW files = Except.error (collisionMsg name) := by
  cases hfr : firstRepeat [] (allKeys files) with
  | none =>
    exact absurd ((firstRepeat_eq_none_iff (allKeys files) []).mp hfr).1 h
  | some d =>
    obtain ⟨hmem, hdup⟩ := firstRepeat_some_dup (allKeys files) [] d hfr
    rcases hdup with hseen | hcount
    · simp at hseen
    · refine ⟨d, hcount, ?_⟩
      unfold initW
      apply loadAll_error
      simpa using hfr

/-- Witness for C1: two concrete files both declaring tensor w. -/
theorem C1_collision_witness :
    ¬(allKeys [fileW1, fileW2]).Nodup ∧
    ∃ name, 2 ≤ (allKeys [fileW1, fileW2]).count name ∧
      initW [fileW1, fileW2] = Except.error (collisionMsg name) :=
  ⟨by decide, C1_collision_all_or_nothing [fileW1, fileW2] (by decide)⟩

/-- C2: for a constructed aggregator whose loaded paths all re-parse to
JSON objects at index time (with extractable `data_offsets`),
`get_index` succeeds and its `total_size` is the sum over every loaded
file and every non-`__metadata__` header entry of
`data_offsets[1] - data_offsets[0]` (`pathsSum`). -/
theorem C2_total_size (bo : ByteOrder) (fs : String → Bytes)
    (hdr : String → List (String × Json)) (files : List SFile) (w : Wrapper)
    (_hw : initW files = Except.ok w)
    (hparse : ∀ p ∈ w.file_paths,
      read_safetensors_json bo (fs p) = Except.ok (Json.obj (hdr p)))
    (hwf : ∀ p ∈ w.file_paths, ∀ kv ∈ hdr p, kv.1 ≠ "__metadata__" →
      exOk (entrySpan kv.2) = true) :
    ∃ idx, get_index bo fs w.file_paths = Except.ok idx ∧
      idx.total_size = pathsSum hdr w.file_paths := by
  obtain ⟨wm', hok, _⟩ := indexFiles_ok bo fs hdr w.file_paths [] 0 hparse hwf
  refine ⟨{ total_size := 0 + pathsSum hdr w.file_paths, weight_map := wm' },
    ?_, ?_⟩
  · simp [get_index, hok]
  · simp

/-- Witness for C2: a single-file aggregator over concrete bytes whose
header declares one 8-byte tensor. -/
theorem C2_total_size_witness :
    ∃ idx, get_index ByteOrder.little fsA wrapA.file_paths = Except.ok idx ∧
      idx.total_size = pathsSum hdrA wrapA.file_paths :=
  C2_total_size ByteOrder.little fsA hdrA [fileA] wrapA rfl
    (fun _ _ => rfl) (by decide)

/-- C3: under the same hypotheses as C2, every `weight_map` entry maps a
tensor name to the basename of the *last* loaded path whose on-disk
header contains that name as a non-`__metadata__` entry — so each name
maps to its source file basename, and when two files index-time
headers share a name the later file in load order wins, with no
collision re-check. -/
theorem C3_weight_map (bo : ByteOrder) (fs : String → Bytes)
    (hdr : String → List (String × Json)) (files : List SFile) (w : Wrapper)
    (_hw : initW files = Except.ok w)
    (hparse : ∀ p ∈ w.file_paths,
      read_safetensors_json bo (fs p) = Except.ok (Json.obj (hdr p)))
    (hwf : ∀ p ∈ w.file_paths, ∀ kv ∈ hdr p, kv.1 ≠ "__metadata__" →
      exOk (entrySpan kv.2) = true) :
    ∃ idx, get_index bo fs w.file_paths = Except.ok idx ∧
      ∀ k, dictLookup k idx.weight_map =
        match lastOwner hdr k w.file_paths with
        | some q => some (osPathBasename q)
        | none => none := by
  obtain ⟨wm', hok, hlk⟩ := indexFiles_ok bo fs hdr w.file_paths [] 0 hparse hwf
  refine ⟨{ total_size := 0 + pathsSum hdr w.file_paths, weight_map := wm' },
    ?_, ?_⟩
  · simp [get_index, hok]
  · intro k
    have h := hlk k
    simpa [dictLookup] using h

/-- Witness for C3: an aggregator built from two files with distinct
names, indexed after both on-disk headers changed to declare the same
tensor w: the later file basename wins (and the directory of the
first path is stripped). -/
theorem C3_weight_map_witness :
    ∃ idx, get_index ByteOrder.little fsD wrapD.file_paths = Except.ok idx ∧
      dictLookup "w" idx.weight_map = some "file2.safetensors" := by
  obtain ⟨idx, hok, hlk⟩ := C3_weight_map ByteOrder.little fsD hdrD
    [fileD1, fileD2] wrapD rfl (fun _ _ => rfl) (by decide)
  refine ⟨idx, hok, ?_⟩
  rw [hlk "w"]
  rfl

/-- C4 as stated is false: `c4file` declares a 100-byte header but
provides only 54 bytes after the prefix, yet the parser completes
successfully on the silent short read (`f.read(N)` is never checked). -/
theorem C4_counterexample :
    c4file.length < 8 + 100 ∧
    structUnpackQ ByteOrder.little (c4file.take 8) = Except.ok 100 ∧
    read_safetensors_json ByteOrder.little c4file = Except.ok exJson :=
  ⟨by decide, rfl, rfl⟩

/-- C4 (amended): with fewer than 8 bytes available the parser always
fails (the `struct.unpack` error); a body shorter than the declared
length N is *not* detected — the code silently reads the available
bytes, and truncation surfaces only indirectly if the short body fails
UTF-8 decoding or JSON parsing. -/
theorem C4_short_prefix_fails (bo : ByteOrder) (file : Bytes)
    (h : file.length < 8) :
    read_safetensors_json bo file =
      Except.error "struct.error: unpack requires a buffer of 8 bytes" := by
  have hle : ¬8 ≤ file.length := Nat.not_le.mpr h
  simp [read_safetensors_json, structUnpackQ, hle]

/-- Witness for the amended C4: a 3-byte input fails with the unpack
error. -/
theorem C4_short_prefix_witness :
    ([5, 6, 7] : Bytes).length < 8 ∧
    read_safetensors_json ByteOrder.little [5, 6, 7] =
      Except.error "struct.error: unpack requires a buffer of 8 bytes" :=
  ⟨by decide, C4_short_prefix_fails ByteOrder.little [5, 6, 7] (by decide)⟩

/-- C5: the code unpacks the length prefix with the bare `Q` format,
which follows the host *native* byte order instead of the
little-endian order the format mandates: on a big-endian platform the
spec own example file (54-byte header plus 8 data bytes) reads a
prefix of 54·2⁵⁶ instead of 54 and parsing fails, while the same bytes
parse on a little-endian platform. -/
theorem C5_native_byte_order :
    structUnpackQ ByteOrder.little (c5file.take 8) = Except.ok 54 ∧
    structUnpackQ ByteOrder.big (c5file.take 8) = Except.ok (54 * 2 ^ 56) ∧
    read_safetensors_json ByteOrder.little c5file = Except.ok exJson ∧
    read_safetensors_json ByteOrder.big c5file =
      Except.error "json.JSONDecodeError" :=
  ⟨rfl, rfl, rfl, rfl⟩

/-- C6: for a name absent from the registry, the defaulted accessor
`get` returns the caller-supplied default instead of failing, while the
strict accessor `__getitem__` fails with the `KeyError` naming the
tensor. -/
theorem C6_accessors (w : Wrapper) (key : String) (default : Option Tensor)
    (h : dictLookup key w.tensors = none) :
    Wrapper.get w key default = default ∧
    getitem w key = Except.error (notFoundMsg key) := by
  have hgi : getitem w key = Except.error (notFoundMsg key) := by
    simp [getitem, h]
  have hget : Wrapper.get w key default = default := by
    unfold Wrapper.get
    rw [hgi]
  exact ⟨hget, hgi⟩

/-- Witness for C6: looking up x in an empty aggregator. -/
theorem C6_accessors_witness :
    Wrapper.get wrapEmpty "x" none = none ∧
    getitem wrapEmpty "x" = Except.error (notFoundMsg "x") :=
  C6_accessors wrapEmpty "x" none rfl

/-- C7: a single-file aggregator `len` equals the number of header
keys excluding `__metadata__` (the `safe_open` key count), and a
two-file aggregator `len` equals the sum of the two files counts. -/
theorem C7_len (f g : SFile) :
    (∀ w, initW [f] = Except.ok w → lenW w = (safeOpenKeys f).length) ∧
    (∀ w, initW [f, g] = Except.ok w →
      lenW w = (safeOpenKeys f).length + (safeOpenKeys g).length) := by
  constructor
  · intro w hw
    obtain ⟨_, ht, _⟩ := initW_ok_elim [f] w hw
    simp [lenW, ht, regOf]
  · intro w hw
    obtain ⟨_, ht, _⟩ := initW_ok_elim [f, g] w hw
    simp [lenW, ht, regOf]

/-- Witness for C7: one file with two tensors plus a `__metadata__`
entry (len 2, metadata excluded), then adding a disjoint one-tensor
file (len 3). -/
theorem C7_len_witness :
    lenW wrapT12 = (safeOpenKeys fileT12).length ∧
    lenW wrapT123 = (safeOpenKeys fileT12).length + (safeOpenKeys fileT3).length :=
  ⟨(C7_len fileT12 fileT3).1 wrapT12 rfl, (C7_len fileT12 fileT3).2 wrapT123 rfl⟩

/-- C8: constructing from a bare single path and from the one-element
list produces identical results — the same registry, loaded-path list
and hence the same answers to every query. -/
theorem C8_single_path_normalization (f : SFile) :
    initArg (FilePathsArg.one f) = initArg (FilePathsArg.many [f]) := rfl

/-- C9: on successful construction, `keys()` lists every tensor name
loaded from any file exactly once: the list has no duplicates and
contains exactly the names occurring in some loaded file key set. -/
theorem C9_keys_exactly_once (files : List SFile) (w : Wrapper)
    (hw : initW files = Except.ok w) :
    (keysW w).Nodup ∧
    ∀ n, n ∈ keysW w ↔ ∃ f ∈ files, n ∈ safeOpenKeys f := by
  obtain ⟨_, ht, hnd⟩ := initW_ok_elim files w hw
  have hkeys : keysW w = allKeys files := by
    simp [keysW, ht, regOf_map_fst]
  refine ⟨?_, ?_⟩
  · rw [hkeys]; exact hnd
  · intro n
    rw [hkeys]
    exact mem_allKeys files n

/-- Witness for C9: the two-file three-tensor aggregator. -/
theorem C9_keys_witness :
    (keysW wrapT123).Nodup ∧
    ∀ n, n ∈ keysW wrapT123 ↔ ∃ f ∈ [fileT12, fileT3], n ∈ safeOpenKeys f :=
  C9_keys_exactly_once [fileT12, fileT3] wrapT123 rfl

/-- C10: the string representation interpolates the registry length in
both positions (`len(self)` and `len(self._tensors)`), so the displayed
file count always equals the displayed tensor count no matter how many
files were loaded. -/
theorem C10_repr_file_count (files : List SFile) (w : Wrapper)
    (_hw : initW files = Except.ok w) :
    reprW w = "<SafetensorsWrapper: " ++ toString (lenW w) ++ " tensors from "
      ++ toString (lenW w) ++ " files>" := rfl

/-- Witness for C10: a wrapper built from two files holding three
tensors prints three files. -/
theorem C10_repr_witness :
    reprW wrapT123 = "<SafetensorsWrapper: 3 tensors from 3 files>" :=
  (C10_repr_file_count [fileT12, fileT3] wrapT123 rfl).trans (by decide)

  